import Mathlib

/-!
Verification of the perp-trader cross-venue arbitrage engine.

This file gives a shallow embedding, in Lean 4, of the pure decision logic of
the engine: the VWAP quote derivation and change detection of the data feed
(`get_price`, `collect_step`), the spread analyzer (`analyze_arbitrage`), the
position manager's open/close predicates and its per-delta processing
(`have_to_open_position`, `have_to_close_position`, `process_positions`), and
the order-sizing and open logic of an arbitrage position (`get_order_amount`,
`openAttempt`).  Machine floats of the source are modelled as exact rationals;
Python dicts are modelled as association lists (insertion ordered, unique
keys) or as total functions with a default, matching how the source reads
them; exceptions are modelled with `Option` / `Except`.  Theorems below check
the behavioural statements of the specification against these definitions.
-/

/-- Quote derived from one order-book snapshot: VWAP bid/ask for the target
notional plus the venue-supplied timestamp in milliseconds. -/
structure Quote where
  bid : ℚ
  ask : ℚ
  timestamp : ℚ
deriving DecidableEq, Repr

/-- Record emitted by the spread analyzer, one per ordered venue pair per
common instrument (src/app/modules/data_feed.py, class SpreadData). -/
structure SpreadData where
  market : String
  buy_exchange_id : String
  buy_price : ℚ
  sell_exchange_id : String
  sell_price : ℚ
  raw_spread : ℚ
  commission : ℚ
  net_spread : ℚ
  min_timestamp : ℚ
deriving DecidableEq, Repr

/-- Identity key of a spread: (market, buy venue, sell venue). -/
def SpreadData.key (s : SpreadData) : String × String × String :=
  (s.market, s.buy_exchange_id, s.sell_exchange_id)

/-- The configuration fields consulted by the embedded code paths
(src/app/settings.py, BotConfig and PositionConfig). -/
structure BotConfig where
  open_position_net_spread_threshold : ℚ
  close_position_raw_spread_threshold : ℚ
  close_position_after_seconds : ℚ
  analyze_arbitrage_max_data_age_ms : ℚ
  open_position_max_data_age_ms : ℚ
  close_position_max_data_age_ms : ℚ
  consider_funding : Bool
  usd_amount : ℚ
  leverage : ℚ
  size_buffer_factor : ℚ
deriving Repr

/-- Funding adjustment used by both predicates: `(buy_rate − sell_rate) × 100`
when funding consideration is enabled, else `0`.  The rates map models
`self.funding_rates.get(ex, {}).get(market, 0)` as a total function whose
value is `0` wherever the Python dict has no entry. -/
def funding_adjustment (considerFunding : Bool) (rates : String → String → ℚ)
    (s : SpreadData) : ℚ :=
  if considerFunding then
    (rates s.buy_exchange_id s.market - rates s.sell_exchange_id s.market) * 100
  else 0

/-- Strategy.have_to_open_position (src/app/modules/strategy.py): open when
the effective net spread is at least the configured threshold and the data
age is strictly below the configured maximum. -/
def have_to_open_position (cfg : BotConfig) (rates : String → String → ℚ)
    (nowMs : ℚ) (s : SpreadData) : Bool :=
  let fadj := funding_adjustment cfg.consider_funding rates s
  let effectiveNetSpread := s.net_spread - fadj
  let netSpreadOk :=
    decide (cfg.open_position_net_spread_threshold ≤ effectiveNetSpread)
  let age := nowMs - s.min_timestamp
  let ageOk := decide (age < cfg.open_position_max_data_age_ms)
  netSpreadOk && ageOk

/-- An open arbitrage position as tracked by the Strategy
(src/app/modules/arbitrage_position.py, constructor fields plus
`opened_at`, the monotonic time recorded on a successful open). -/
structure ArbPosition where
  market : String
  buy_exchange_id : String
  sell_exchange_id : String
  buy_price : ℚ
  sell_price : ℚ
  usd_amount : ℚ
  leverage : ℚ
  opened_at : ℚ
deriving DecidableEq, Repr

/-- Identity key of a position: (market, buy venue, sell venue). -/
def ArbPosition.key (p : ArbPosition) : String × String × String :=
  (p.market, p.buy_exchange_id, p.sell_exchange_id)

/-- Strategy.have_to_close_position (src/app/modules/strategy.py).  Note the
source computes `time_based_close = close_after < current_time`, a strict
comparison. -/
def have_to_close_position (cfg : BotConfig) (rates : String → String → ℚ)
    (nowMono nowMs : ℚ) (p : ArbPosition) (s : SpreadData) : Bool :=
  let closeAfter := p.opened_at + cfg.close_position_after_seconds
  let timeBasedClose := decide (closeAfter < nowMono)
  let fadj := funding_adjustment cfg.consider_funding rates s
  let effectiveRawSpread := s.raw_spread - fadj
  let spreadBasedClose :=
    decide (effectiveRawSpread ≤ cfg.close_position_raw_spread_threshold)
  let age := nowMs - s.min_timestamp
  let ageOk := decide (age < cfg.close_position_max_data_age_ms)
  (timeBasedClose || spreadBasedClose) && ageOk

/-- A configuration with the repository's default values
(src/app/settings.py), used for concrete evaluations. -/
def defaultCfg : BotConfig :=
  { open_position_net_spread_threshold := 1 / 10
    close_position_raw_spread_threshold := 1 / 50
    close_position_after_seconds := 300
    analyze_arbitrage_max_data_age_ms := 400
    open_position_max_data_age_ms := 200
    close_position_max_data_age_ms := 200
    consider_funding := false
    usd_amount := 100
    leverage := 1
    size_buffer_factor := 21 / 20 }

/-- Funding-rate map with every rate zero. -/
def zeroRates : String → String → ℚ := fun _ _ => 0

/-- A position opened at monotonic time 200 (for the close-boundary check). -/
def posBoundary : ArbPosition :=
  { market := "BTC"
    buy_exchange_id := "A"
    sell_exchange_id := "B"
    buy_price := 100
    sell_price := 101
    usd_amount := 100
    leverage := 1
    opened_at := 200 }

/-- A spread whose raw spread is above the close threshold (so only the
time-based branch could fire) with fresh data. -/
def spreadBoundary : SpreadData :=
  { market := "BTC"
    buy_exchange_id := "A"
    buy_price := 100
    sell_exchange_id := "B"
    sell_price := 101
    raw_spread := 1
    commission := 2 / 5
    net_spread := 3 / 5
    min_timestamp := 950 }

/-- Inner loop of `get_price` (src/app/modules/data_feed.py, collect_feed):
walk the book side accumulating `price × size`; once the cumulative notional
would meet or exceed the target, take a fractional fill of the current level
so the accumulated notional equals exactly the target and return
accumulated notional ÷ accumulated base volume.  Running out of levels
models the `ValueError('Not enough orderbook depth!')` as `none`. -/
def get_price_go (target : ℚ) : List (ℚ × ℚ) → ℚ → ℚ → Option ℚ
  | [], _, _ => none
  | (price, volume) :: rest, amountsSum, volumesSum =>
    let amount := price * volume
    if target ≤ amount + amountsSum then
      let a := target - amountsSum
      let v := a / price
      some ((amountsSum + a) / (volumesSum + v))
    else
      get_price_go target rest (amountsSum + amount) (volumesSum + volume)

/-- The feed's VWAP executable price for one book side. -/
def get_price (target : ℚ) (side : List (ℚ × ℚ)) : Option ℚ :=
  get_price_go target side 0 0

/-- Total notional (`price × size` summed) of a book side. -/
def sumNotional (side : List (ℚ × ℚ)) : ℚ :=
  (side.map fun l => l.1 * l.2).sum

/-- Total base volume of a book side. -/
def sumVolume (side : List (ℚ × ℚ)) : ℚ :=
  (side.map fun l => l.2).sum

/-- Volume-weighted average price of a list of (price, volume) levels. -/
def vwapPrice (levels : List (ℚ × ℚ)) : ℚ :=
  sumNotional levels / sumVolume levels

/-- Dictionary lookup on an association list (first matching key). -/
def lookupBy {α : Type} (l : List (String × α)) (k : String) : Option α :=
  (l.find? fun p => decide (p.1 = k)).map Prod.snd

/-- A raw order-book snapshot as queued by the watchers
(src/app/modules/data_feed.py, watch_orderbook). -/
structure Snapshot where
  exchange : String
  market : String
  bids : List (ℚ × ℚ)
  asks : List (ℚ × ℚ)
  timestamp : ℚ
deriving Repr

/-- The aggregator's feed state: venue → market → quote, modelled as nested
insertion-ordered association lists (Python dicts). -/
abbrev Feed := List (String × List (String × Quote))

/-- The stored quote for (venue, market), if any. -/
def storedQuote (feed : Feed) (ex m : String) : Option Quote :=
  match lookupBy feed ex with
  | none => none
  | some mkts => lookupBy mkts m

/-- Change detection of collect_feed: changed when the market is not stored
yet or either stored price differs (strict inequality on floats). -/
def quoteChanged (stored : Option Quote) (bid ask : ℚ) : Bool :=
  match stored with
  | none => true
  | some q => decide (q.bid ≠ bid) || decide (q.ask ≠ ask)

/-- Insert-or-replace on an association list, keeping the insertion position
of an existing key (Python dict assignment). -/
def upsert {α : Type} (k : String) (v : α) : List (String × α) → List (String × α)
  | [] => [(k, v)]
  | e :: rest => if e.1 = k then (k, v) :: rest else e :: upsert k v rest

/-- feed[exchange][market] = quote on the defaultdict-of-dict feed state. -/
def feedInsert (feed : Feed) (ex m : String) (q : Quote) : Feed :=
  match lookupBy feed ex with
  | none => feed ++ [(ex, [(m, q)])]
  | some mkts => upsert ex (upsert m q mkts) feed

/-- The changed-feed delta built after processing a snapshot: for EVERY venue
in the feed state, the quotes of the changed market (an empty inner dict for
venues that do not carry it) — the source filters by market only. -/
def deltaFor (feed : Feed) (changedMarket : String) : Feed :=
  feed.map fun e => (e.1, e.2.filter fun mq => decide (mq.1 = changedMarket))

/-- One cycle of DataFeed.collect_feed on a single queued snapshot: skip empty
books, compute VWAP bid and ask (insufficient depth aborts the cycle with no
state change), update the feed and emit a delta only on a detected change. -/
def collect_step (target : ℚ) (feed : Feed) (ob : Snapshot) : Feed × Option Feed :=
  if ob.bids = [] ∨ ob.asks = [] then (feed, none)
  else
    match get_price target ob.bids with
    | none => (feed, none)
    | some bid =>
      match get_price target ob.asks with
      | none => (feed, none)
      | some ask =>
        if quoteChanged (storedQuote feed ob.exchange ob.market) bid ask then
          let feed1 := feedInsert feed ob.exchange ob.market
            { bid := bid, ask := ask, timestamp := ob.timestamp }
          (feed1, some (deltaFor feed1 ob.market))
        else (feed, none)

/-- Membership of a quote in a feed: venue `e` carries market `m` at `q`. -/
def quoteIn (f : Feed) (e m : String) (q : Quote) : Prop :=
  ∃ mkts, (e, mkts) ∈ f ∧ (m, q) ∈ mkts

/-- Book side used to exercise the VWAP theorem on concrete numbers. -/
def sideW : List (ℚ × ℚ) := [(2, 3), (4, 5)]

/-- Snapshot whose bid side is `sideW`. -/
def obW : Snapshot :=
  { exchange := "A"
    market := "M"
    bids := [(2, 3), (4, 5)]
    asks := [(1, 1)]
    timestamp := 0 }

/-- One SpreadData as built by Strategy.analyze_arbitrage
(src/app/modules/strategy.py): buy at the buy venue's ask, sell at the sell
venue's bid, raw spread in percent of the mid price, commission
`(taker_buy + taker_sell + taker_buy + taker_sell) × 100` (open and close,
both legs taker, as in get_cached_commission). -/
def mkSpread (taker : String → String → ℚ)
    (buyEx sellEx market : String) (bq sq : Quote) : SpreadData :=
  let buyPrice := bq.ask
  let sellPrice := sq.bid
  let priceDiff := sellPrice - buyPrice
  let midPrice := (sellPrice + buyPrice) / 2
  let rawSpread := priceDiff / midPrice * 100
  let commission :=
    (taker buyEx market + taker sellEx market +
      taker buyEx market + taker sellEx market) * 100
  { market := market
    buy_exchange_id := buyEx
    buy_price := buyPrice
    sell_exchange_id := sellEx
    sell_price := sellPrice
    raw_spread := rawSpread
    commission := commission
    net_spread := rawSpread - commission
    min_timestamp := min bq.timestamp sq.timestamp }

/-- Strategy.analyze_arbitrage: for every ordered pair of distinct venues and
every market carried by both, emit a spread unless the age of the older quote
exceeds `analyze_arbitrage_max_data_age_ms`.  The commission cache is pure
memoization of a deterministic value and is modelled by direct computation. -/
def analyze_arbitrage (cfg : BotConfig) (taker : String → String → ℚ)
    (nowMs : ℚ) (data : List (String × List (String × Quote))) :
    List SpreadData :=
  data.bind fun buyEntry =>
    data.bind fun sellEntry =>
      if buyEntry.1 = sellEntry.1 then []
      else
        buyEntry.2.filterMap fun mq =>
          match lookupBy sellEntry.2 mq.1 with
          | none => none
          | some sq =>
            if nowMs - min mq.2.timestamp sq.timestamp >
                cfg.analyze_arbitrage_max_data_age_ms then none
            else some (mkSpread taker buyEntry.1 sellEntry.1 mq.1 mq.2 sq)

/-- Taker-fee table with every fee zero, for concrete evaluations. -/
def zeroTaker : String → String → ℚ := fun _ _ => 0

/-- Quote with timestamp 600 (400 ms old at `nowMs = 1000`). -/
def qOld : Quote := { bid := 99, ask := 101, timestamp := 600 }

/-- Quote with timestamp 900 (100 ms old at `nowMs = 1000`). -/
def qNew : Quote := { bid := 99, ask := 101, timestamp := 900 }

/-- Feed state where the older of the two quotes for market M is exactly
`analyze_arbitrage_max_data_age_ms` (400 ms) old at `nowMs = 1000`. -/
def dataAge : List (String × List (String × Quote)) :=
  [("A", [("M", qOld)]), ("B", [("M", qNew)])]

/-- Stored quote of venue A before the probe snapshot arrives. -/
def qStoredA : Quote := { bid := 1, ask := 2, timestamp := 0 }

/-- Stored quote of venue B, untouched by the probe snapshot. -/
def qStoredB : Quote := { bid := 3, ask := 4, timestamp := 0 }

/-- Quote produced for venue A by the probe snapshot. -/
def qTouched : Quote := { bid := 5, ask := 6, timestamp := 7 }

/-- Feed state holding market M on both venues. -/
def feedC7 : Feed := [("A", [("M", qStoredA)]), ("B", [("M", qStoredB)])]

/-- Probe snapshot touching only (venue A, market M). -/
def obC7 : Snapshot :=
  { exchange := "A"
    market := "M"
    bids := [(5, 100)]
    asks := [(6, 100)]
    timestamp := 7 }

/-- The Strategy's mutable state: open positions keyed by market (Python dict,
insertion ordered) and the tracked free balance per venue (reads use
`.get(ex, 0)`, modelled as a total function). -/
structure StratState where
  positions : List (String × ArbPosition)
  balances : String → ℚ

/-- spreads[key] lookup used by process_positions. -/
def spreadFor (spreads : List SpreadData) (k : String × String × String) :
    Option SpreadData :=
  spreads.find? fun s => decide (s.key = k)

/-- Close test for one tracked position inside process_positions: skip when
the delta has no spread under the position's key, otherwise apply
have_to_close_position. -/
def shouldCloseEntry (cfg : BotConfig) (rates : String → String → ℚ)
    (nowMono nowMs : ℚ) (spreads : List SpreadData)
    (e : String × ArbPosition) : Bool :=
  match spreadFor spreads e.2.key with
  | none => false
  | some sd => have_to_close_position cfg rates nowMono nowMs e.2 sd

/-- First half of Strategy.process_positions: gather positions to close,
close them (close() effects are external), delete them from the map keyed by
their market and return the set of closed markets. -/
def closePhase (cfg : BotConfig) (rates : String → String → ℚ)
    (nowMono nowMs : ℚ) (spreads : List SpreadData) (st : StratState) :
    StratState × List String :=
  let toClose :=
    st.positions.filter (shouldCloseEntry cfg rates nowMono nowMs spreads)
  let closedMarkets := toClose.map fun e => e.2.market
  ({ positions := st.positions.filter fun e => decide (e.1 ∉ closedMarkets)
     balances := st.balances },
   closedMarkets)

/-- Subtract `amt` from venue `ex` in a balance map (Python `-=`). -/
def decBal (b : String → ℚ) (ex : String) (amt : ℚ) : String → ℚ :=
  fun x => if x = ex then b ex - amt else b x

/-- ArbitragePosition(...) as constructed in the open loop of
process_positions, with `opened_at` the monotonic time recorded on a
successful open. -/
def mkPositionFromSpread (cfg : BotConfig) (nowMono : ℚ) (s : SpreadData) :
    ArbPosition :=
  { market := s.market
    buy_exchange_id := s.buy_exchange_id
    sell_exchange_id := s.sell_exchange_id
    buy_price := s.buy_price
    sell_price := s.sell_price
    usd_amount := cfg.usd_amount
    leverage := cfg.leverage
    opened_at := nowMono }

/-- Body of the open loop of Strategy.process_positions for one candidate
spread: skip when the market already has a position; skip when either venue's
tracked balance is below `usd_amount × size_buffer_factor`; otherwise attempt
the open (the external order outcome is the oracle `openOk`) and on success
insert the position and decrement both tracked balances. -/
def openStep (cfg : BotConfig) (openOk : String → Bool) (nowMono : ℚ)
    (st : StratState) (s : SpreadData) : StratState :=
  if (st.positions.find? fun e => decide (e.1 = s.market)).isSome then st
  else
    let size := cfg.usd_amount * cfg.size_buffer_factor
    if st.balances s.buy_exchange_id < size ∨
        st.balances s.sell_exchange_id < size then st
    else if openOk s.market then
      { positions :=
          st.positions ++ [(s.market, mkPositionFromSpread cfg nowMono s)]
        balances :=
          decBal (decBal st.balances s.buy_exchange_id size)
            s.sell_exchange_id size }
    else st

/-- Candidate spreads of the open loop: markets closed in this cycle are
excluded, then the open predicate is applied. -/
def openCandidates (cfg : BotConfig) (rates : String → String → ℚ)
    (nowMs : ℚ) (closed : List String) (spreads : List SpreadData) :
    List SpreadData :=
  spreads.filter fun s =>
    decide (s.market ∉ closed) && have_to_open_position cfg rates nowMs s

/-- Second half of Strategy.process_positions: the open loop. -/
def openPhase (cfg : BotConfig) (rates : String → String → ℚ)
    (openOk : String → Bool) (nowMono nowMs : ℚ) (closed : List String)
    (spreads : List SpreadData) (st : StratState) : StratState :=
  (openCandidates cfg rates nowMs closed spreads).foldl
    (openStep cfg openOk nowMono) st

/-- Strategy.process_positions on one feed-delta's spreads: the close phase
runs to completion first, then the open loop with the just-closed markets
excluded. -/
def process_positions (cfg : BotConfig) (rates : String → String → ℚ)
    (openOk : String → Bool) (nowMono nowMs : ℚ)
    (spreads : List SpreadData) (st : StratState) : StratState :=
  let r := closePhase cfg rates nowMono nowMs spreads st
  openPhase cfg rates openOk nowMono nowMs r.2 spreads r.1

/-- `spreads[spread.key] = spread` on the accumulated spread dict of
process_feed (replace in place or append). -/
def upsertSpread : List SpreadData → SpreadData → List SpreadData
  | [], s => [s]
  | t :: rest, s => if t.key = s.key then s :: rest else t :: upsertSpread rest s

/-- `spreads.update(new_spreads)` of Strategy.process_feed: the accumulated
dict that is rendered/emitted after every cycle, regardless of what the
position processing decided. -/
def updateSpreads (acc l : List SpreadData) : List SpreadData :=
  l.foldl upsertSpread acc

/-- Python's `limits.cost.min or 5`: a missing, None or zero minimum notional
falls back to 5 USD (src/app/modules/arbitrage_position.py,
get_order_amount). -/
def orFive (x : Option ℚ) : ℚ :=
  match x with
  | none => 5
  | some v => if v = 0 then 5 else v

/-- ArbitragePosition.get_order_amount: reject when `usd_amount` is below the
venues' minimum notional (InvalidOrder, modelled as `Except.error ()`);
quantize `usd × leverage ÷ mid` on both venues; on disagreement re-quantize
both to the maximum; the minimum of the final pair is the unified amount —
a remaining mismatch is logged but does NOT abort (the raise is commented
out in the source). -/
def get_order_amount (minCostBuy minCostSell : Option ℚ)
    (quantBuy quantSell : ℚ → ℚ) (usd lev buyPrice sellPrice : ℚ) :
    Except Unit ℚ :=
  let minNotional := max (orFive minCostBuy) (orFive minCostSell)
  if usd < minNotional then Except.error ()
  else
    let positionNotional := usd * lev
    let midPrice := (buyPrice + sellPrice) / 2
    let amountRaw := positionNotional / midPrice
    let buyAmount := quantBuy amountRaw
    let sellAmount := quantSell amountRaw
    if buyAmount = sellAmount then Except.ok (min buyAmount sellAmount)
    else
      let maxAmount := max buyAmount sellAmount
      let buyAmount2 := quantBuy maxAmount
      let sellAmount2 := quantSell maxAmount
      Except.ok (min buyAmount2 sellAmount2)

/-- ArbitragePosition.open reduced to its decision skeleton: an InvalidOrder
from sizing returns False before any order is placed; otherwise both legs are
submitted and if either raised, the failure is recorded and False is
returned; only when both legs succeeded is `opened_at` set and True
returned.  The second component is the resulting `opened_at`. -/
def openAttempt (ga : Except Unit ℚ) (buyLegOk sellLegOk : Bool)
    (nowMono : ℚ) : Bool × Option ℚ :=
  match ga with
  | Except.error _ => (false, none)
  | Except.ok _ =>
    if buyLegOk && sellLegOk then (true, some nowMono) else (false, none)

/-- Venue precision function that floors to whole contracts. -/
def quantFloor (x : ℚ) : ℚ := ((⌊x⌋ : ℤ) : ℚ)

/-- Venue precision function that keeps full precision. -/
def quantId (x : ℚ) : ℚ := x

/-- A fresh, profitable spread for market BTC (net spread 0.6 % ≥ 0.1 %
threshold, 100 ms old at `nowMs = 1000`). -/
def spreadOpenW : SpreadData :=
  { market := "BTC"
    buy_exchange_id := "A"
    buy_price := 100
    sell_exchange_id := "B"
    sell_price := 101
    raw_spread := 1
    commission := 2 / 5
    net_spread := 3 / 5
    min_timestamp := 900 }

/-- Strategy state with no positions and 1000 USD free on every venue. -/
def stW : StratState :=
  { positions := []
    balances := fun _ => 1000 }

/-- A spread under the key of `posBoundary` that satisfies BOTH the
spread-based close predicate (raw 0 ≤ 0.02 threshold) and the open predicate
(net 0.6 ≥ 0.1, age 50 ms), for the tie-breaking scenario. -/
def sdCloseW : SpreadData :=
  { market := "BTC"
    buy_exchange_id := "A"
    buy_price := 100
    sell_exchange_id := "B"
    sell_price := 101
    raw_spread := 0
    commission := 2 / 5
    net_spread := 3 / 5
    min_timestamp := 950 }

/-- Strategy state holding the position `posBoundary` for market BTC. -/
def stC5 : StratState :=
  { positions := [("BTC", posBoundary)]
    balances := fun _ => 1000 }

/-- Claim C2 (amended part): the Strategy decides to close exactly when
(`now_monotonic` is STRICTLY greater than `opened_at + close_position_after_seconds`
OR the funding-adjusted raw spread is at most the close threshold) AND the
data age is strictly below `close_position_max_data_age_ms`. -/
theorem have_to_close_position_iff (cfg : BotConfig)
    (rates : String → String → ℚ) (nowMono nowMs : ℚ)
    (p : ArbPosition) (s : SpreadData) :
    have_to_close_position cfg rates nowMono nowMs p s = true ↔
      ((p.opened_at + cfg.close_position_after_seconds < nowMono ∨
          s.raw_spread - funding_adjustment cfg.consider_funding rates s ≤
            cfg.close_position_raw_spread_threshold) ∧
        nowMs - s.min_timestamp < cfg.close_position_max_data_age_ms) := by
  simp [have_to_close_position]

/-- Claim C2 (counterexample): at the exact instant
`now_monotonic = opened_at + close_position_after_seconds` (here 500 = 200 + 300),
with fresh data and the spread branch false, the code does NOT close, whereas
the claim asserts the time-based branch already triggers at that instant. -/
theorem have_to_close_position_boundary_cex :
    have_to_close_position defaultCfg zeroRates 500 1000
        posBoundary spreadBoundary = false ∧
      posBoundary.opened_at + defaultCfg.close_position_after_seconds ≤ 500 ∧
      1000 - spreadBoundary.min_timestamp <
        defaultCfg.close_position_max_data_age_ms ∧
      ¬(spreadBoundary.raw_spread -
          funding_adjustment defaultCfg.consider_funding zeroRates
            spreadBoundary ≤
        defaultCfg.close_position_raw_spread_threshold) := by
  refine ⟨?_, by norm_num [posBoundary, defaultCfg], ?_, ?_⟩
  · norm_num [have_to_close_position, funding_adjustment, posBoundary,
      spreadBoundary, defaultCfg]
  · norm_num [spreadBoundary, defaultCfg]
  · norm_num [spreadBoundary, defaultCfg, funding_adjustment]

theorem sumNotional_nil : sumNotional [] = 0 := rfl

theorem sumNotional_cons (a : ℚ × ℚ) (t : List (ℚ × ℚ)) :
    sumNotional (a :: t) = a.1 * a.2 + sumNotional t := by
  simp [sumNotional]

theorem sumVolume_nil : sumVolume [] = 0 := rfl

theorem sumVolume_cons (a : ℚ × ℚ) (t : List (ℚ × ℚ)) :
    sumVolume (a :: t) = a.2 + sumVolume t := by
  simp [sumVolume]

theorem sumNotional_append (l r : List (ℚ × ℚ)) :
    sumNotional (l ++ r) = sumNotional l + sumNotional r := by
  simp [sumNotional]

theorem sumVolume_append (l r : List (ℚ × ℚ)) :
    sumVolume (l ++ r) = sumVolume l + sumVolume r := by
  simp [sumVolume]

theorem sumNotional_nonneg (side : List (ℚ × ℚ))
    (h : ∀ l ∈ side, 0 ≤ l.1 * l.2) : 0 ≤ sumNotional side := by
  induction side with
  | nil => simp [sumNotional]
  | cons a t ih =>
    have ha := h a (by simp)
    have ht := ih fun l hl => h l (by simp [hl])
    rw [sumNotional_cons]
    linarith

theorem get_price_go_none (target : ℚ) (side : List (ℚ × ℚ))
    (hnn : ∀ l ∈ side, 0 ≤ l.1 * l.2) :
    ∀ aSum vSum : ℚ, aSum + sumNotional side < target →
      get_price_go target side aSum vSum = none := by
  induction side with
  | nil => intro aSum vSum _; simp [get_price_go]
  | cons a t ih =>
    intro aSum vSum h
    obtain ⟨p, v⟩ := a
    rw [sumNotional_cons] at h
    simp only at h
    have hrest : 0 ≤ sumNotional t :=
      sumNotional_nonneg t fun l hl => hnn l (by simp [hl])
    have hbr : ¬ target ≤ p * v + aSum := by
      simp only [not_le]
      linarith
    simp only [get_price_go]
    rw [if_neg hbr]
    exact ih (fun l hl => hnn l (by simp [hl])) (aSum + p * v) (vSum + v)
      (by linarith)

theorem get_price_go_break (target : ℚ) (side : List (ℚ × ℚ))
    (hp : ∀ l ∈ side, 0 < l.1) :
    ∀ aSum vSum : ℚ, aSum < target → target ≤ aSum + sumNotional side →
      ∃ pre p v rest,
        side = pre ++ (p, v) :: rest ∧
        aSum + sumNotional pre < target ∧
        target ≤ aSum + sumNotional pre + p * v ∧
        get_price_go target side aSum vSum =
          some (target /
            (vSum + sumVolume pre + (target - (aSum + sumNotional pre)) / p)) := by
  induction side with
  | nil =>
    intro aSum vSum h1 h2
    exfalso
    rw [sumNotional_nil] at h2
    linarith
  | cons a t ih =>
    intro aSum vSum h1 h2
    obtain ⟨p, v⟩ := a
    by_cases hbr : target ≤ p * v + aSum
    · refine ⟨[], p, v, t, rfl, ?_, ?_, ?_⟩
      · rw [sumNotional_nil]; linarith
      · rw [sumNotional_nil]; simp; linarith
      · simp only [get_price_go]
        rw [if_pos hbr]
        have hnum : aSum + (target - aSum) = target := by ring
        simp only [sumVolume_nil, sumNotional_nil, add_zero]
        rw [hnum]
    · have h2' : target ≤ aSum + p * v + sumNotional t := by
        rw [sumNotional_cons] at h2; simp at h2; linarith
      have hrec := ih (fun l hl => hp l (by simp [hl])) (aSum + p * v) (vSum + v)
        (by linarith [not_le.mp hbr]) h2'
      obtain ⟨pre, p', v', rest, hside, hlt, hge, hout⟩ := hrec
      refine ⟨(p, v) :: pre, p', v', rest, by rw [hside]; rfl, ?_, ?_, ?_⟩
      · rw [sumNotional_cons]; simp; linarith
      · rw [sumNotional_cons]; simp; linarith
      · simp only [get_price_go]
        rw [if_neg hbr, hout]
        rw [sumVolume_cons, sumNotional_cons]
        congr 2
        ring

/-- Claim C3: when a book side's total notional meets the target, `get_price`
returns exactly the volume-weighted average of the consumed levels — full
levels up to the point where the target is first met, plus a fractional fill
of the final level making the consumed notional equal the target; when the
total notional is below the target no quote is produced and the snapshot
leaves the feed state unchanged and emits nothing. -/
theorem vwap_correctness (target : ℚ) (side : List (ℚ × ℚ))
    (feed : Feed) (ob : Snapshot)
    (hp : ∀ l ∈ side, 0 < l.1) (hv : ∀ l ∈ side, 0 ≤ l.2) (ht : 0 < target)
    (hside : side = ob.bids ∨ side = ob.asks) :
    (target ≤ sumNotional side →
      ∃ pre p v rest,
        side = pre ++ (p, v) :: rest ∧
        sumNotional pre < target ∧
        target ≤ sumNotional pre + p * v ∧
        sumNotional (pre ++ [(p, (target - sumNotional pre) / p)]) = target ∧
        get_price target side =
          some (vwapPrice (pre ++ [(p, (target - sumNotional pre) / p)]))) ∧
    (sumNotional side < target →
      get_price target side = none ∧
      collect_step target feed ob = (feed, none)) := by
  constructor
  · intro hdepth
    obtain ⟨pre, p, v, rest, hsp, hlt, hge, hout⟩ :=
      get_price_go_break target side hp 0 0 ht (by linarith)
    have hp0 : 0 < p := hp (p, v) (by rw [hsp]; simp)
    have hcons : sumNotional (pre ++ [(p, (target - sumNotional pre) / p)]) =
        target := by
      rw [sumNotional_append, sumNotional_cons, sumNotional_nil]
      simp only
      rw [mul_comm p, div_mul_cancel₀ _ (ne_of_gt hp0)]
      ring
    refine ⟨pre, p, v, rest, hsp, by linarith, by linarith, hcons, ?_⟩
    rw [get_price, hout]
    unfold vwapPrice
    rw [hcons, sumVolume_append, sumVolume_cons, sumVolume_nil]
    congr 2
    simp only
    ring
  · intro hshallow
    have hnn : ∀ l ∈ side, 0 ≤ l.1 * l.2 := fun l hl =>
      mul_nonneg (le_of_lt (hp l hl)) (hv l hl)
    have hnone : get_price target side = none := by
      rw [get_price]
      exact get_price_go_none target side hnn 0 0 (by linarith)
    refine ⟨hnone, ?_⟩
    unfold collect_step
    by_cases hempty : ob.bids = [] ∨ ob.asks = []
    · rw [if_pos hempty]
    · rw [if_neg hempty]
      rcases hside with hb | ha
      · rw [← hb, hnone]
      · rw [← ha] at *
        cases hgb : get_price target ob.bids with
        | none => rfl
        | some bid => rw [hnone]

/-- Witness for `vwap_correctness` at target 10 against the book
[(2, 3), (4, 5)] (total notional 26 ≥ 10). -/
theorem vwap_correctness_witness :
    (0 : ℚ) < 10 ∧
    (((10 : ℚ) ≤ sumNotional sideW →
      ∃ pre p v rest,
        sideW = pre ++ (p, v) :: rest ∧
        sumNotional pre < 10 ∧
        (10 : ℚ) ≤ sumNotional pre + p * v ∧
        sumNotional (pre ++ [(p, (10 - sumNotional pre) / p)]) = 10 ∧
        get_price 10 sideW =
          some (vwapPrice (pre ++ [(p, (10 - sumNotional pre) / p)]))) ∧
    (sumNotional sideW < 10 →
      get_price 10 sideW = none ∧
      collect_step 10 [] obW = ([], none))) :=
  ⟨by norm_num,
   vwap_correctness 10 sideW [] obW
     (by intro l hl; simp [sideW] at hl; rcases hl with h | h <;> rw [h] <;> norm_num)
     (by intro l hl; simp [sideW] at hl; rcases hl with h | h <;> rw [h] <;> norm_num)
     (by norm_num) (Or.inl rfl)⟩

theorem find?_eq_of_mem_nodup {α : Type} (l : List (String × α)) (k : String)
    (v : α) (h : (k, v) ∈ l) (hnd : (l.map Prod.fst).Nodup) :
    l.find? (fun p => decide (p.1 = k)) = some (k, v) := by
  induction l with
  | nil => simp at h
  | cons a t ih =>
    simp at hnd
    rcases List.mem_cons.mp h with h1 | h1
    · rw [← h1]; simp [List.find?]
    · have hne : a.1 ≠ k := by
        intro he
        exact hnd.1 v (by rw [he]; exact h1)
      simp [List.find?, hne]
      exact ih h1 hnd.2

theorem mem_of_lookupBy_some {α : Type} (l : List (String × α)) (k : String)
    (v : α) (h : lookupBy l k = some v) : (k, v) ∈ l := by
  unfold lookupBy at h
  cases hf : l.find? fun p => decide (p.1 = k) with
  | none => rw [hf] at h; simp at h
  | some e =>
    rw [hf] at h
    simp at h
    have hm := List.mem_of_find?_eq_some hf
    have hp := List.find?_some hf
    obtain ⟨e1, e2⟩ := e
    simp at hp h
    rw [← hp, ← h]
    exact hm

theorem lookupBy_eq_of_mem {α : Type} (l : List (String × α)) (k : String)
    (v : α) (h : (k, v) ∈ l) (hnd : (l.map Prod.fst).Nodup) :
    lookupBy l k = some v := by
  unfold lookupBy
  rw [find?_eq_of_mem_nodup l k v h hnd]
  rfl

theorem mem_analyze_iff (cfg : BotConfig) (taker : String → String → ℚ)
    (nowMs : ℚ) (data : List (String × List (String × Quote)))
    (s : SpreadData) :
    s ∈ analyze_arbitrage cfg taker nowMs data ↔
      ∃ be ∈ data, ∃ se ∈ data, be.1 ≠ se.1 ∧
        ∃ mq ∈ be.2, ∃ sq, lookupBy se.2 mq.1 = some sq ∧
          ¬(nowMs - min mq.2.timestamp sq.timestamp >
              cfg.analyze_arbitrage_max_data_age_ms) ∧
          s = mkSpread taker be.1 se.1 mq.1 mq.2 sq := by
  unfold analyze_arbitrage
  rw [List.mem_bind]
  constructor
  · rintro ⟨be, hbe, hs⟩
    rw [List.mem_bind] at hs
    obtain ⟨se, hse, hs⟩ := hs
    by_cases he : be.1 = se.1
    · rw [if_pos he] at hs; simp at hs
    · rw [if_neg he] at hs
      rw [List.mem_filterMap] at hs
      obtain ⟨mq, hmq, hf⟩ := hs
      cases hl : lookupBy se.2 mq.1 with
      | none => rw [hl] at hf; simp at hf
      | some sq =>
        rw [hl] at hf
        have hf2 : (if nowMs - min mq.2.timestamp sq.timestamp >
            cfg.analyze_arbitrage_max_data_age_ms then none
            else some (mkSpread taker be.1 se.1 mq.1 mq.2 sq)) = some s := hf
        by_cases hage : nowMs - min mq.2.timestamp sq.timestamp >
            cfg.analyze_arbitrage_max_data_age_ms
        · rw [if_pos hage] at hf2; simp at hf2
        · rw [if_neg hage] at hf2
          simp at hf2
          exact ⟨be, hbe, se, hse, he, mq, hmq, sq, hl, hage, hf2.symm⟩
  · rintro ⟨be, hbe, se, hse, hne, mq, hmq, sq, hl, hage, hs⟩
    refine ⟨be, hbe, ?_⟩
    rw [List.mem_bind]
    refine ⟨se, hse, ?_⟩
    rw [if_neg hne, List.mem_filterMap]
    refine ⟨mq, hmq, ?_⟩
    rw [hl]
    show (if nowMs - min mq.2.timestamp sq.timestamp >
        cfg.analyze_arbitrage_max_data_age_ms then none
        else some (mkSpread taker be.1 se.1 mq.1 mq.2 sq)) = some s
    rw [if_neg hage, hs]

theorem mem_dataAge_AB :
    mkSpread zeroTaker "A" "B" "M" qOld qNew ∈
      analyze_arbitrage defaultCfg zeroTaker 1000 dataAge := by
  rw [mem_analyze_iff]
  refine ⟨("A", [("M", qOld)]), by simp [dataAge], ("B", [("M", qNew)]),
    by simp [dataAge], by simp, ("M", qOld), by simp, qNew, ?_, ?_, rfl⟩
  · simp [lookupBy, List.find?]
  · norm_num [qOld, qNew, defaultCfg, min_def]

theorem mem_dataAge_BA :
    mkSpread zeroTaker "B" "A" "M" qNew qOld ∈
      analyze_arbitrage defaultCfg zeroTaker 1000 dataAge := by
  rw [mem_analyze_iff]
  refine ⟨("B", [("M", qNew)]), by simp [dataAge], ("A", [("M", qOld)]),
    by simp [dataAge], by simp, ("M", qNew), by simp, qOld, ?_, ?_, rfl⟩
  · simp [lookupBy, List.find?]
  · norm_num [qOld, qNew, defaultCfg, min_def]

/-- Claim C4 (amended): `analyze_arbitrage` never emits a SpreadData whose
age `now_ms − min_timestamp` exceeds `analyze_arbitrage_max_data_age_ms`;
the gate is non-strict — a spread whose age equals the maximum IS emitted
(the source skips only when age is strictly greater). -/
theorem analyze_arbitrage_age_le (cfg : BotConfig)
    (taker : String → String → ℚ) (nowMs : ℚ)
    (data : List (String × List (String × Quote))) (s : SpreadData)
    (hs : s ∈ analyze_arbitrage cfg taker nowMs data) :
    nowMs - s.min_timestamp ≤ cfg.analyze_arbitrage_max_data_age_ms := by
  rw [mem_analyze_iff] at hs
  obtain ⟨be, _, se, _, _, mq, _, sq, _, hage, hs⟩ := hs
  rw [hs]
  have hmt : (mkSpread taker be.1 se.1 mq.1 mq.2 sq).min_timestamp =
      min mq.2.timestamp sq.timestamp := rfl
  rw [hmt]
  exact not_lt.mp hage

/-- Witness for `analyze_arbitrage_age_le` on the concrete feed `dataAge`. -/
theorem analyze_arbitrage_age_le_witness :
    1000 - (mkSpread zeroTaker "A" "B" "M" qOld qNew).min_timestamp ≤
      defaultCfg.analyze_arbitrage_max_data_age_ms :=
  analyze_arbitrage_age_le defaultCfg zeroTaker 1000 dataAge
    (mkSpread zeroTaker "A" "B" "M" qOld qNew) mem_dataAge_AB

/-- Claim C4 (counterexample): with the default maximum age of 400 ms, a
spread whose older quote is exactly 400 ms old IS emitted, refuting the
strictly-less age gate stated by the claim. -/
theorem analyze_age_boundary_cex :
    ∃ s ∈ analyze_arbitrage defaultCfg zeroTaker 1000 dataAge,
      1000 - s.min_timestamp = defaultCfg.analyze_arbitrage_max_data_age_ms := by
  refine ⟨mkSpread zeroTaker "A" "B" "M" qOld qNew, mem_dataAge_AB, ?_⟩
  norm_num [mkSpread, qOld, qNew, defaultCfg, min_def]

/-- Claim C8 (amended): for every emitted (A, B, I) spread the mirrored
(B, A, I) spread is also emitted (venue maps have unique market keys, as
Python dicts do); the mirrored raw spread is computed from the opposite book
sides (bid of A against ask of B), so it equals `−raw_spread(A,B)` exactly
when each venue's quote has bid equal to ask, not in general. -/
theorem analyze_mirror (cfg : BotConfig) (taker : String → String → ℚ)
    (nowMs : ℚ) (data : List (String × List (String × Quote)))
    (hnd : ∀ e ∈ data, (e.2.map Prod.fst).Nodup)
    (s : SpreadData) (hs : s ∈ analyze_arbitrage cfg taker nowMs data) :
    ∃ t ∈ analyze_arbitrage cfg taker nowMs data,
      t.market = s.market ∧
      t.buy_exchange_id = s.sell_exchange_id ∧
      t.sell_exchange_id = s.buy_exchange_id ∧
      (t.sell_price = s.buy_price → s.sell_price = t.buy_price →
        t.raw_spread = -s.raw_spread) := by
  rw [mem_analyze_iff] at hs
  obtain ⟨be, hbe, se, hse, hne, mq, hmq, sq, hl, hage, hs⟩ := hs
  obtain ⟨m, bq⟩ := mq
  refine ⟨mkSpread taker se.1 be.1 m sq bq, ?_, ?_, ?_, ?_, ?_⟩
  · rw [mem_analyze_iff]
    refine ⟨se, hse, be, hbe, fun h => hne h.symm, (m, sq),
      mem_of_lookupBy_some se.2 m sq hl, bq,
      lookupBy_eq_of_mem be.2 m bq hmq (hnd be hbe), ?_, rfl⟩
    rw [min_comm]
    exact hage
  · rw [hs]; rfl
  · rw [hs]; rfl
  · rw [hs]; rfl
  · rw [hs]
    intro h1 h2
    have hb : bq.bid = bq.ask := h1
    have hq : sq.bid = sq.ask := h2
    show (bq.bid - sq.ask) / ((bq.bid + sq.ask) / 2) * 100 =
      -((sq.bid - bq.ask) / ((sq.bid + bq.ask) / 2) * 100)
    rw [hb, hq, add_comm sq.ask bq.ask]
    ring

/-- Witness for `analyze_mirror` on the concrete feed `dataAge`. -/
theorem analyze_mirror_witness :
    ∃ t ∈ analyze_arbitrage defaultCfg zeroTaker 1000 dataAge,
      t.market = (mkSpread zeroTaker "A" "B" "M" qOld qNew).market ∧
      t.buy_exchange_id =
        (mkSpread zeroTaker "A" "B" "M" qOld qNew).sell_exchange_id ∧
      t.sell_exchange_id =
        (mkSpread zeroTaker "A" "B" "M" qOld qNew).buy_exchange_id ∧
      (t.sell_price = (mkSpread zeroTaker "A" "B" "M" qOld qNew).buy_price →
        (mkSpread zeroTaker "A" "B" "M" qOld qNew).sell_price = t.buy_price →
        t.raw_spread = -(mkSpread zeroTaker "A" "B" "M" qOld qNew).raw_spread) :=
  analyze_mirror defaultCfg zeroTaker 1000 dataAge
    (by intro e he; simp [dataAge] at he; rcases he with h | h <;> rw [h] <;> simp)
    (mkSpread zeroTaker "A" "B" "M" qOld qNew) mem_dataAge_AB

/-- Claim C8 (counterexample): on a feed where both venues quote bid 99 and
ask 101 for market M, both ordered spreads are emitted with raw spread −2 %
each, so `raw_spread(B,A)` is −2 while `−raw_spread(A,B)` is +2 — a gap of
4 percentage points that no rounding accounts for. -/
theorem analyze_mirror_cex :
    ∃ s ∈ analyze_arbitrage defaultCfg zeroTaker 1000 dataAge,
      ∃ t ∈ analyze_arbitrage defaultCfg zeroTaker 1000 dataAge,
        s.key = ("M", "A", "B") ∧ t.key = ("M", "B", "A") ∧
        s.raw_spread = -2 ∧ t.raw_spread = -2 ∧
        t.raw_spread ≠ -s.raw_spread := by
  refine ⟨mkSpread zeroTaker "A" "B" "M" qOld qNew, mem_dataAge_AB,
    mkSpread zeroTaker "B" "A" "M" qNew qOld, mem_dataAge_BA,
    rfl, rfl, ?_, ?_, ?_⟩
  · norm_num [mkSpread, qOld, qNew]
  · norm_num [mkSpread, qOld, qNew]
  · norm_num [mkSpread, qOld, qNew]

theorem quoteIn_deltaFor (f : Feed) (mkt e m : String) (q : Quote) :
    quoteIn (deltaFor f mkt) e m q ↔ (m = mkt ∧ quoteIn f e m q) := by
  unfold quoteIn deltaFor
  constructor
  · rintro ⟨mkts, hmem, hq⟩
    rw [List.mem_map] at hmem
    obtain ⟨e0, he0, heq⟩ := hmem
    rw [Prod.ext_iff] at heq
    obtain ⟨he1, he2⟩ := heq
    simp only at he1 he2
    rw [← he2, List.mem_filter] at hq
    obtain ⟨hq1, hq2⟩ := hq
    simp at hq2
    refine ⟨hq2, e0.2, ?_, hq1⟩
    rw [← he1]
    exact he0
  · rintro ⟨hm, mkts, hmem, hq⟩
    refine ⟨mkts.filter fun mq => decide (mq.1 = mkt), ?_, ?_⟩
    · have := List.mem_map_of_mem
        (fun ent => (ent.1, ent.2.filter fun mq => decide (mq.1 = mkt))) hmem
      simpa using this
    · rw [List.mem_filter]
      exact ⟨hq, by simp [hm]⟩

/-- Claim C7 (amended): for each snapshot the stored quote is rewritten and
the instrument marked changed exactly when there is no stored quote yet or
the newly computed bid or ask differs (strict float inequality); a delta is
emitted exactly when a change was detected, and the emitted delta consists of
the changed instrument's quotes from EVERY venue of the updated feed state —
not only the touched (venue, instrument) pair. -/
theorem collect_feed_delta_spec (target : ℚ) (feed : Feed) (ob : Snapshot)
    (bid ask : ℚ) (hb : ¬ob.bids = []) (ha : ¬ob.asks = [])
    (h1 : get_price target ob.bids = some bid)
    (h2 : get_price target ob.asks = some ask) :
    (quoteChanged (storedQuote feed ob.exchange ob.market) bid ask = true ↔
      storedQuote feed ob.exchange ob.market = none ∨
        ∃ q, storedQuote feed ob.exchange ob.market = some q ∧
          (q.bid ≠ bid ∨ q.ask ≠ ask)) ∧
    (quoteChanged (storedQuote feed ob.exchange ob.market) bid ask = false →
      collect_step target feed ob = (feed, none)) ∧
    (quoteChanged (storedQuote feed ob.exchange ob.market) bid ask = true →
      ∃ d, collect_step target feed ob =
          (feedInsert feed ob.exchange ob.market
            { bid := bid, ask := ask, timestamp := ob.timestamp }, some d) ∧
        ∀ e m q, quoteIn d e m q ↔
          (m = ob.market ∧
            quoteIn (feedInsert feed ob.exchange ob.market
              { bid := bid, ask := ask, timestamp := ob.timestamp }) e m q)) := by
  have hstep : collect_step target feed ob =
      (if quoteChanged (storedQuote feed ob.exchange ob.market) bid ask then
        (feedInsert feed ob.exchange ob.market
          { bid := bid, ask := ask, timestamp := ob.timestamp },
         some (deltaFor (feedInsert feed ob.exchange ob.market
           { bid := bid, ask := ask, timestamp := ob.timestamp }) ob.market))
      else (feed, none)) := by
    unfold collect_step
    rw [if_neg (by simp [hb, ha]), h1, h2]
  refine ⟨?_, ?_, ?_⟩
  · cases hst : storedQuote feed ob.exchange ob.market with
    | none => simp [quoteChanged]
    | some q => simp [quoteChanged]
  · intro hch
    rw [hstep, if_neg (by rw [hch]; simp)]
  · intro hch
    rw [hstep, if_pos (by rw [hch])]
    refine ⟨_, rfl, ?_⟩
    intro e m q
    exact quoteIn_deltaFor _ ob.market e m q

theorem collect_step_feedC7_eval :
    collect_step 10 feedC7 obC7 =
      ([("A", [("M", qTouched)]), ("B", [("M", qStoredB)])],
       some [("A", [("M", qTouched)]), ("B", [("M", qStoredB)])]) := by
  have hbid : get_price 10 obC7.bids = some 5 := by
    norm_num [obC7, get_price, get_price_go]
  have hask : get_price 10 obC7.asks = some 6 := by
    norm_num [obC7, get_price, get_price_go]
  have hst : storedQuote feedC7 obC7.exchange obC7.market = some qStoredA := by
    simp [storedQuote, feedC7, obC7, lookupBy, List.find?]
  unfold collect_step
  rw [if_neg (by simp [obC7]), hbid, hask, hst]
  show (if quoteChanged (some qStoredA) 5 6 = true then
      (feedInsert feedC7 obC7.exchange obC7.market
        { bid := 5, ask := 6, timestamp := obC7.timestamp },
       some (deltaFor (feedInsert feedC7 obC7.exchange obC7.market
         { bid := 5, ask := 6, timestamp := obC7.timestamp }) obC7.market))
    else (feedC7, none)) = _
  rw [if_pos (by simp [quoteChanged, qStoredA])]
  have hts : obC7.timestamp = (7 : ℚ) := rfl
  have hq : ({ bid := 5, ask := 6, timestamp := obC7.timestamp } : Quote) =
      qTouched := by rw [qTouched, hts]
  rw [hq]
  have hins : feedInsert feedC7 obC7.exchange obC7.market qTouched =
      [("A", [("M", qTouched)]), ("B", [("M", qStoredB)])] := by
    simp [feedInsert, feedC7, obC7, lookupBy, List.find?, upsert]
  rw [hins]
  have hdel : deltaFor [("A", [("M", qTouched)]), ("B", [("M", qStoredB)])]
      obC7.market = [("A", [("M", qTouched)]), ("B", [("M", qStoredB)])] := by
    simp [deltaFor, obC7]
  rw [hdel]

/-- Claim C7 (counterexample): the snapshot touches only (venue A, market M),
yet the emitted delta also carries venue B's stored quote of market M — the
delta is filtered by market only, not by (venue, instrument). -/
theorem collect_feed_delta_cex :
    ∃ d, (collect_step 10 feedC7 obC7).2 = some d ∧
      quoteIn d "B" "M" qStoredB ∧ obC7.exchange ≠ "B" := by
  refine ⟨[("A", [("M", qTouched)]), ("B", [("M", qStoredB)])], ?_, ?_, ?_⟩
  · rw [collect_step_feedC7_eval]
  · exact ⟨[("M", qStoredB)], by simp, by simp⟩
  · simp [obC7]

/-- Witness for `collect_feed_delta_spec` at the concrete snapshot `obC7`
against the feed `feedC7`. -/
theorem collect_feed_delta_spec_witness :
    (quoteChanged (storedQuote feedC7 obC7.exchange obC7.market) 5 6 = true ↔
      storedQuote feedC7 obC7.exchange obC7.market = none ∨
        ∃ q, storedQuote feedC7 obC7.exchange obC7.market = some q ∧
          (q.bid ≠ 5 ∨ q.ask ≠ 6)) ∧
    (quoteChanged (storedQuote feedC7 obC7.exchange obC7.market) 5 6 = false →
      collect_step 10 feedC7 obC7 = (feedC7, none)) ∧
    (quoteChanged (storedQuote feedC7 obC7.exchange obC7.market) 5 6 = true →
      ∃ d, collect_step 10 feedC7 obC7 =
          (feedInsert feedC7 obC7.exchange obC7.market
            { bid := 5, ask := 6, timestamp := obC7.timestamp }, some d) ∧
        ∀ e m q, quoteIn d e m q ↔
          (m = obC7.market ∧
            quoteIn (feedInsert feedC7 obC7.exchange obC7.market
              { bid := 5, ask := 6, timestamp := obC7.timestamp }) e m q)) :=
  collect_feed_delta_spec 10 feedC7 obC7 5 6
    (by simp [obC7]) (by simp [obC7])
    (by norm_num [obC7, get_price, get_price_go])
    (by norm_num [obC7, get_price, get_price_go])

theorem spreadFor_upsertSpread (acc : List SpreadData) (s : SpreadData) :
    spreadFor (upsertSpread acc s) s.key = some s := by
  induction acc with
  | nil => simp [upsertSpread, spreadFor, List.find?]
  | cons t rest ih =>
    unfold upsertSpread
    by_cases hk : t.key = s.key
    · rw [if_pos hk]
      simp [spreadFor, List.find?]
    · rw [if_neg hk]
      unfold spreadFor at ih ⊢
      simp [List.find?, hk]
      exact ih

theorem have_to_open_position_iff (cfg : BotConfig)
    (rates : String → String → ℚ) (nowMs : ℚ) (s : SpreadData) :
    have_to_open_position cfg rates nowMs s = true ↔
      (cfg.open_position_net_spread_threshold ≤
          s.net_spread - funding_adjustment cfg.consider_funding rates s ∧
        nowMs - s.min_timestamp < cfg.open_position_max_data_age_ms) := by
  simp [have_to_open_position]

theorem openPhase_single (cfg : BotConfig) (rates : String → String → ℚ)
    (openOk : String → Bool) (nowMono nowMs : ℚ) (s : SpreadData)
    (st : StratState) :
    openPhase cfg rates openOk nowMono nowMs [] [s] st =
      if have_to_open_position cfg rates nowMs s then
        openStep cfg openOk nowMono st s
      else st := by
  unfold openPhase openCandidates
  cases hh : have_to_open_position cfg rates nowMs s <;>
    simp [List.filter, hh]

/-- Claim C1: a position for the spread's market is opened (appears in the
positions map after the open loop while absent before) if and only if the
effective net spread is at least `open_position_net_spread_threshold`, the
data age is strictly below `open_position_max_data_age_ms`, no position for
that market exists, and both venues' tracked free balances are at least
`usd_amount × size_buffer_factor` (given that order placement itself
succeeds); when the balance check fails the whole state — positions map and
balances — is untouched, and the spread is still present in the emitted
spread dict. -/
theorem strategy_open_iff (cfg : BotConfig) (rates : String → String → ℚ)
    (openOk : String → Bool) (nowMono nowMs : ℚ) (prev : List SpreadData)
    (s : SpreadData) (st : StratState)
    (hok : openOk s.market = true) :
    ((((openPhase cfg rates openOk nowMono nowMs [] [s] st).positions.find?
        fun e => decide (e.1 = s.market)).isSome = true ∧
      (st.positions.find? fun e => decide (e.1 = s.market)).isSome = false) ↔
      (cfg.open_position_net_spread_threshold ≤
          s.net_spread - funding_adjustment cfg.consider_funding rates s ∧
        nowMs - s.min_timestamp < cfg.open_position_max_data_age_ms ∧
        (st.positions.find? fun e => decide (e.1 = s.market)).isSome = false ∧
        cfg.usd_amount * cfg.size_buffer_factor ≤
          st.balances s.buy_exchange_id ∧
        cfg.usd_amount * cfg.size_buffer_factor ≤
          st.balances s.sell_exchange_id)) ∧
    ((st.balances s.buy_exchange_id <
          cfg.usd_amount * cfg.size_buffer_factor ∨
        st.balances s.sell_exchange_id <
          cfg.usd_amount * cfg.size_buffer_factor) →
      openPhase cfg rates openOk nowMono nowMs [] [s] st = st) ∧
    spreadFor (updateSpreads prev [s]) s.key = some s := by
  refine ⟨?_, ?_, ?_⟩
  · constructor
    · rintro ⟨hafter, hbefore⟩
      by_cases hh : have_to_open_position cfg rates nowMs s = true
      · have hcond := (have_to_open_position_iff cfg rates nowMs s).mp hh
        refine ⟨hcond.1, hcond.2, hbefore, ?_, ?_⟩ <;>
        · by_contra hbal
          rw [not_le] at hbal
          rw [openPhase_single, if_pos hh] at hafter
          unfold openStep at hafter
          rw [if_neg (by rw [hbefore]; simp)] at hafter
          rw [if_pos (by first | exact Or.inl hbal | exact Or.inr hbal)]
            at hafter
          rw [hafter] at hbefore
          simp at hbefore
      · rw [openPhase_single,
          if_neg (by rw [Bool.not_eq_true] at hh ⊢; exact hh)] at hafter
        rw [hafter] at hbefore
        simp at hbefore
    · rintro ⟨hthr, hage, hbefore, hbb, hbs⟩
      have hh : have_to_open_position cfg rates nowMs s = true :=
        (have_to_open_position_iff cfg rates nowMs s).mpr ⟨hthr, hage⟩
      refine ⟨?_, hbefore⟩
      rw [openPhase_single, if_pos hh]
      unfold openStep
      rw [if_neg (by rw [hbefore]; simp)]
      rw [if_neg (by push_neg; exact ⟨hbb, hbs⟩)]
      rw [if_pos hok]
      simp only [List.find?_append]
      have hbn : st.positions.find? (fun e => decide (e.1 = s.market)) =
          none := by
        cases hfb : st.positions.find? fun e => decide (e.1 = s.market) with
        | none => rfl
        | some e => rw [hfb] at hbefore; simp at hbefore
      rw [hbn]
      simp [List.find?]
  · intro hbal
    rw [openPhase_single]
    by_cases hh : have_to_open_position cfg rates nowMs s = true
    · rw [if_pos hh]
      unfold openStep
      by_cases hpres :
          (st.positions.find? fun e => decide (e.1 = s.market)).isSome = true
      · rw [if_pos hpres]
      · rw [if_neg hpres, if_pos hbal]
    · rw [if_neg (by rw [Bool.not_eq_true] at hh ⊢; exact hh)]
  · show spreadFor (upsertSpread prev s) s.key = some s
    exact spreadFor_upsertSpread prev s

/-- Witness for `strategy_open_iff` on the concrete spread `spreadOpenW`
against the empty state `stW`. -/
theorem strategy_open_iff_witness :
    ((((openPhase defaultCfg zeroRates (fun _ => true) 0 1000 [] [spreadOpenW]
        stW).positions.find?
        fun e => decide (e.1 = spreadOpenW.market)).isSome = true ∧
      (stW.positions.find?
        fun e => decide (e.1 = spreadOpenW.market)).isSome = false) ↔
      (defaultCfg.open_position_net_spread_threshold ≤
          spreadOpenW.net_spread -
            funding_adjustment defaultCfg.consider_funding zeroRates
              spreadOpenW ∧
        1000 - spreadOpenW.min_timestamp <
          defaultCfg.open_position_max_data_age_ms ∧
        (stW.positions.find?
          fun e => decide (e.1 = spreadOpenW.market)).isSome = false ∧
        defaultCfg.usd_amount * defaultCfg.size_buffer_factor ≤
          stW.balances spreadOpenW.buy_exchange_id ∧
        defaultCfg.usd_amount * defaultCfg.size_buffer_factor ≤
          stW.balances spreadOpenW.sell_exchange_id)) ∧
    ((stW.balances spreadOpenW.buy_exchange_id <
          defaultCfg.usd_amount * defaultCfg.size_buffer_factor ∨
        stW.balances spreadOpenW.sell_exchange_id <
          defaultCfg.usd_amount * defaultCfg.size_buffer_factor) →
      openPhase defaultCfg zeroRates (fun _ => true) 0 1000 [] [spreadOpenW]
        stW = stW) ∧
    spreadFor (updateSpreads [] [spreadOpenW]) spreadOpenW.key =
      some spreadOpenW :=
  strategy_open_iff defaultCfg zeroRates (fun _ => true) 0 1000 [] spreadOpenW
    stW rfl

theorem openStep_positions (cfg : BotConfig) (openOk : String → Bool)
    (nowMono : ℚ) (st : StratState) (s : SpreadData) :
    (openStep cfg openOk nowMono st s).positions = st.positions ∨
    (openStep cfg openOk nowMono st s).positions =
      st.positions ++ [(s.market, mkPositionFromSpread cfg nowMono s)] := by
  simp only [openStep]
  split_ifs <;> simp

theorem foldl_openStep_keys (cfg : BotConfig) (openOk : String → Bool)
    (nowMono : ℚ) (closed : List String) :
    ∀ (l : List SpreadData) (st : StratState),
      (∀ s ∈ l, s.market ∉ closed) →
      ∀ e ∈ (l.foldl (openStep cfg openOk nowMono) st).positions,
        e ∈ st.positions ∨ e.1 ∉ closed := by
  intro l
  induction l with
  | nil => intro st _ e he; exact Or.inl he
  | cons s t ih =>
    intro st hl e he
    rw [List.foldl_cons] at he
    rcases ih (openStep cfg openOk nowMono st s)
        (fun x hx => hl x (List.mem_cons_of_mem s hx)) e he with h | h
    · rcases openStep_positions cfg openOk nowMono st s with hp | hp
      · rw [hp] at h; exact Or.inl h
      · rw [hp] at h
        rcases List.mem_append.mp h with hm | hm
        · exact Or.inl hm
        · simp at hm
          right
          rw [hm]
          exact hl s (List.mem_cons_self s t)
    · exact Or.inr h

/-- Claim C5: within one feed-delta cycle, the close phase runs to completion
before the open loop starts (process_positions is their sequential
composition), and a market whose position was closed in this cycle is
excluded from the open loop — it appears neither among the newly opened
positions nor anywhere in the resulting positions map, even when the same
delta's spread also satisfies the open predicate. -/
theorem close_before_open (cfg : BotConfig) (rates : String → String → ℚ)
    (openOk : String → Bool) (nowMono nowMs : ℚ) (spreads : List SpreadData)
    (st : StratState) (m : String) (p : ArbPosition) (sd : SpreadData)
    (hmem : (m, p) ∈ st.positions)
    (hsp : spreadFor spreads p.key = some sd)
    (hclose : have_to_close_position cfg rates nowMono nowMs p sd = true) :
    p.market ∈ (closePhase cfg rates nowMono nowMs spreads st).2 ∧
    ∀ e ∈ (process_positions cfg rates openOk nowMono nowMs spreads
        st).positions, e.1 ≠ p.market := by
  have hsc : shouldCloseEntry cfg rates nowMono nowMs spreads (m, p) = true := by
    show (match spreadFor spreads p.key with
      | none => false
      | some sd => have_to_close_position cfg rates nowMono nowMs p sd) = true
    rw [hsp]
    exact hclose
  have hmemf : (m, p) ∈
      st.positions.filter (shouldCloseEntry cfg rates nowMono nowMs spreads) :=
    List.mem_filter.mpr ⟨hmem, hsc⟩
  have hclosed : p.market ∈ (closePhase cfg rates nowMono nowMs spreads st).2 :=
    List.mem_map_of_mem (fun e => e.2.market) hmemf
  refine ⟨hclosed, ?_⟩
  intro e he
  have he2 : e ∈ (openPhase cfg rates openOk nowMono nowMs
      (closePhase cfg rates nowMono nowMs spreads st).2 spreads
      (closePhase cfg rates nowMono nowMs spreads st).1).positions := he
  unfold openPhase at he2
  have hcands : ∀ x ∈ openCandidates cfg rates nowMs
      (closePhase cfg rates nowMono nowMs spreads st).2 spreads,
      x.market ∉ (closePhase cfg rates nowMono nowMs spreads st).2 := by
    intro x hx
    unfold openCandidates at hx
    rw [List.mem_filter, Bool.and_eq_true] at hx
    exact of_decide_eq_true hx.2.1
  rcases foldl_openStep_keys cfg openOk nowMono
      (closePhase cfg rates nowMono nowMs spreads st).2 _ _ hcands e he2
    with h | h
  · have hst1 : (closePhase cfg rates nowMono nowMs spreads st).1.positions =
        st.positions.filter fun x =>
          decide (x.1 ∉ (closePhase cfg rates nowMono nowMs spreads st).2) :=
      rfl
    rw [hst1, List.mem_filter] at h
    have hne : e.1 ∉ (closePhase cfg rates nowMono nowMs spreads st).2 :=
      of_decide_eq_true h.2
    intro hcontra
    rw [hcontra] at hne
    exact hne hclosed
  · intro hcontra
    rw [hcontra] at h
    exact h hclosed

/-- Witness for `close_before_open`: the same delta closes BTC (raw spread 0
below the close threshold) while its spread also satisfies the open
predicate; BTC is excluded from the cycle's open set and final map. -/
theorem close_before_open_witness :
    posBoundary.market ∈
      (closePhase defaultCfg zeroRates 10 1000 [sdCloseW] stC5).2 ∧
    ∀ e ∈ (process_positions defaultCfg zeroRates (fun _ => true) 10 1000
        [sdCloseW] stC5).positions, e.1 ≠ posBoundary.market :=
  close_before_open defaultCfg zeroRates (fun _ => true) 10 1000 [sdCloseW]
    stC5 "BTC" posBoundary sdCloseW
    (by simp [stC5])
    (by simp [spreadFor, List.find?, sdCloseW, posBoundary,
      SpreadData.key, ArbPosition.key])
    (by norm_num [have_to_close_position, funding_adjustment, posBoundary,
      sdCloseW, defaultCfg])

theorem foldl_openStep_false (cfg : BotConfig) (nowMono : ℚ)
    (l : List SpreadData) :
    ∀ st : StratState,
      l.foldl (openStep cfg (fun _ => false) nowMono) st = st := by
  induction l with
  | nil => intro st; rfl
  | cons s t ih =>
    intro st
    rw [List.foldl_cons]
    have hstep : openStep cfg (fun _ => false) nowMono st s = st := by
      simp only [openStep]
      split_ifs <;> simp_all
    rw [hstep]
    exact ih st

/-- Claim C6: when either leg of the paired order placement raises, open()
records the failure and returns False, `opened_at` is never set (the position
never enters the Open state), and the Strategy leaves the system untouched by
the attempt: the positions map and the tracked balances after the open loop
equal their values before it. -/
theorem open_leg_failure_no_commit (ga : ℚ) (buyLegOk sellLegOk : Bool)
    (nowMono : ℚ) (hlegs : buyLegOk = false ∨ sellLegOk = false)
    (cfg : BotConfig) (rates : String → String → ℚ) (nowMs : ℚ)
    (closed : List String) (spreads : List SpreadData) (st : StratState) :
    openAttempt (Except.ok ga) buyLegOk sellLegOk nowMono = (false, none) ∧
    openPhase cfg rates
      (fun _ => (openAttempt (Except.ok ga) buyLegOk sellLegOk nowMono).1)
      nowMono nowMs closed spreads st = st := by
  have hA : openAttempt (Except.ok ga) buyLegOk sellLegOk nowMono =
      (false, none) := by
    unfold openAttempt
    rcases hlegs with h | h <;> rw [h] <;> simp
  refine ⟨hA, ?_⟩
  unfold openPhase
  have hfun : (fun _ : String =>
      (openAttempt (Except.ok ga) buyLegOk sellLegOk nowMono).1) =
      fun _ => false := by
    funext x
    rw [hA]
  rw [hfun]
  exact foldl_openStep_false cfg nowMono _ st

/-- Witness for `open_leg_failure_no_commit` with a failed buy leg against
the empty state `stW`. -/
theorem open_leg_failure_no_commit_witness :
    openAttempt (Except.ok 2) false true 0 = (false, none) ∧
    openPhase defaultCfg zeroRates
      (fun _ => (openAttempt (Except.ok 2) false true 0).1)
      0 1000 [] [spreadOpenW] stW = stW :=
  open_leg_failure_no_commit 2 false true 0 (Or.inl rfl) defaultCfg zeroRates
    1000 [] [spreadOpenW] stW

theorem get_order_amount_error_iff (minCostBuy minCostSell : Option ℚ)
    (quantBuy quantSell : ℚ → ℚ) (usd lev buyPrice sellPrice : ℚ) :
    get_order_amount minCostBuy minCostSell quantBuy quantSell usd lev
        buyPrice sellPrice = Except.error () ↔
      usd < max (orFive minCostBuy) (orFive minCostSell) := by
  unfold get_order_amount
  by_cases hm : usd < max (orFive minCostBuy) (orFive minCostSell)
  · rw [if_pos hm]
    simp [hm]
  · rw [if_neg hm]
    simp only [hm, iff_false]
    split_ifs <;> simp

/-- Claim C9 (amended): sizing aborts the open attempt (InvalidOrder) exactly
when the notional is below the venues' minimum; when the venue-quantized buy
and sell amounts differ, both are re-quantized to their maximum and the
minimum of the results is accepted as the unified amount — a mismatch that
remains after re-quantization is logged but does NOT abort (the raise is
commented out in the source), the minimum still being used. -/
theorem get_order_amount_spec (minCostBuy minCostSell : Option ℚ)
    (quantBuy quantSell : ℚ → ℚ) (usd lev buyPrice sellPrice : ℚ) :
    (usd < max (orFive minCostBuy) (orFive minCostSell) →
      get_order_amount minCostBuy minCostSell quantBuy quantSell usd lev
        buyPrice sellPrice = Except.error ()) ∧
    (¬usd < max (orFive minCostBuy) (orFive minCostSell) →
      (quantBuy (usd * lev / ((buyPrice + sellPrice) / 2)) =
          quantSell (usd * lev / ((buyPrice + sellPrice) / 2)) →
        get_order_amount minCostBuy minCostSell quantBuy quantSell usd lev
          buyPrice sellPrice =
          Except.ok (quantBuy (usd * lev / ((buyPrice + sellPrice) / 2)))) ∧
      (quantBuy (usd * lev / ((buyPrice + sellPrice) / 2)) ≠
          quantSell (usd * lev / ((buyPrice + sellPrice) / 2)) →
        get_order_amount minCostBuy minCostSell quantBuy quantSell usd lev
          buyPrice sellPrice =
          Except.ok (min
            (quantBuy (max (quantBuy (usd * lev / ((buyPrice + sellPrice) / 2)))
              (quantSell (usd * lev / ((buyPrice + sellPrice) / 2)))))
            (quantSell (max (quantBuy (usd * lev / ((buyPrice + sellPrice) / 2)))
              (quantSell (usd * lev / ((buyPrice + sellPrice) / 2)))))))) := by
  constructor
  · intro hm
    unfold get_order_amount
    rw [if_pos hm]
  · intro hm
    constructor
    · intro heq
      unfold get_order_amount
      rw [if_neg hm]
      simp [heq, min_self]
    · intro hne
      unfold get_order_amount
      rw [if_neg hm, if_neg hne]

/-- Claim C9 (counterexample): with a flooring venue and a full-precision
venue, usd 10 and leverage 1 at mid price 4 give a raw amount of 5/2; the
quantized amounts 2 and 5/2 differ, re-quantization to the maximum 5/2 still
yields 2 versus 5/2, yet get_order_amount does not raise InvalidOrder — it
returns the minimum 2 and the open proceeds. -/
theorem get_order_amount_mismatch_cex :
    quantFloor ((10 : ℚ) * 1 / ((4 + 4) / 2)) ≠
      quantId ((10 : ℚ) * 1 / ((4 + 4) / 2)) ∧
    quantFloor (max (quantFloor ((10 : ℚ) * 1 / ((4 + 4) / 2)))
        (quantId ((10 : ℚ) * 1 / ((4 + 4) / 2)))) ≠
      quantId (max (quantFloor ((10 : ℚ) * 1 / ((4 + 4) / 2)))
        (quantId ((10 : ℚ) * 1 / ((4 + 4) / 2)))) ∧
    get_order_amount none none quantFloor quantId 10 1 4 4 = Except.ok 2 ∧
    (openAttempt (get_order_amount none none quantFloor quantId 10 1 4 4)
      true true 0).1 = true := by
  have h52 : (10 : ℚ) * 1 / ((4 + 4) / 2) = 5 / 2 := by norm_num
  have hqf : quantFloor (5 / 2) = 2 := by norm_num [quantFloor]
  have hqi : quantId (5 / 2) = 5 / 2 := rfl
  have hmax : max (quantFloor (5 / 2)) (quantId (5 / 2)) = 5 / 2 := by
    rw [hqf, hqi]; norm_num [max_def]
  refine ⟨?_, ?_, ?_, ?_⟩
  · rw [h52, hqf, hqi]; norm_num
  · rw [h52, hmax, hqf, hqi]; norm_num
  · simp only [get_order_amount]
    rw [if_neg (by norm_num [orFive, max_def])]
    rw [h52]
    rw [if_neg (by rw [hqf, hqi]; norm_num)]
    rw [hmax, hqf, hqi]
    norm_num [min_def]
  · simp only [get_order_amount]
    rw [if_neg (by norm_num [orFive, max_def])]
    rw [h52]
    rw [if_neg (by rw [hqf, hqi]; norm_num)]
    rfl

/-- Witness for `get_order_amount_spec` at the mismatching quantizers. -/
theorem get_order_amount_spec_witness :
    ((10 : ℚ) < max (orFive none) (orFive none) →
      get_order_amount none none quantFloor quantId 10 1 4 4 =
        Except.error ()) ∧
    (¬(10 : ℚ) < max (orFive none) (orFive none) →
      (quantFloor ((10 : ℚ) * 1 / ((4 + 4) / 2)) =
          quantId ((10 : ℚ) * 1 / ((4 + 4) / 2)) →
        get_order_amount none none quantFloor quantId 10 1 4 4 =
          Except.ok (quantFloor ((10 : ℚ) * 1 / ((4 + 4) / 2)))) ∧
      (quantFloor ((10 : ℚ) * 1 / ((4 + 4) / 2)) ≠
          quantId ((10 : ℚ) * 1 / ((4 + 4) / 2)) →
        get_order_amount none none quantFloor quantId 10 1 4 4 =
          Except.ok (min
            (quantFloor (max (quantFloor ((10 : ℚ) * 1 / ((4 + 4) / 2)))
              (quantId ((10 : ℚ) * 1 / ((4 + 4) / 2)))))
            (quantId (max (quantFloor ((10 : ℚ) * 1 / ((4 + 4) / 2)))
              (quantId ((10 : ℚ) * 1 / ((4 + 4) / 2)))))))) :=
  get_order_amount_spec none none quantFloor quantId 10 1 4 4

/-- Claim C10: a missing, None or zero venue minimum notional is substituted
by 5 USD (`limits.cost.min or 5`); with both legs succeeding, open() raises
InvalidOrder internally and returns False exactly when `usd_amount` is
strictly below the maximum over both venues of the substituted minimum
notional. -/
theorem open_min_notional_iff (minCostBuy minCostSell : Option ℚ)
    (quantBuy quantSell : ℚ → ℚ) (usd lev buyPrice sellPrice nowMono : ℚ)
    (buyLegOk sellLegOk : Bool)
    (hlegs : buyLegOk = true ∧ sellLegOk = true) :
    orFive none = 5 ∧ orFive (some 0) = 5 ∧
    (get_order_amount minCostBuy minCostSell quantBuy quantSell usd lev
        buyPrice sellPrice = Except.error () ↔
      usd < max (orFive minCostBuy) (orFive minCostSell)) ∧
    ((openAttempt (get_order_amount minCostBuy minCostSell quantBuy quantSell
        usd lev buyPrice sellPrice) buyLegOk sellLegOk nowMono).1 = false ↔
      usd < max (orFive minCostBuy) (orFive minCostSell)) := by
  refine ⟨rfl, by norm_num [orFive],
    get_order_amount_error_iff minCostBuy minCostSell quantBuy quantSell usd
      lev buyPrice sellPrice, ?_⟩
  by_cases hm : usd < max (orFive minCostBuy) (orFive minCostSell)
  · have he := (get_order_amount_error_iff minCostBuy minCostSell quantBuy
      quantSell usd lev buyPrice sellPrice).mpr hm
    rw [he]
    simp [openAttempt, hm]
  · have hne : get_order_amount minCostBuy minCostSell quantBuy quantSell usd
        lev buyPrice sellPrice ≠ Except.error () := fun h =>
      hm ((get_order_amount_error_iff minCostBuy minCostSell quantBuy
        quantSell usd lev buyPrice sellPrice).mp h)
    cases hg : get_order_amount minCostBuy minCostSell quantBuy quantSell usd
        lev buyPrice sellPrice with
    | error e =>
      cases e
      exact absurd hg hne
    | ok a =>
      simp [openAttempt, hlegs.1, hlegs.2, hm]

/-- Witness for `open_min_notional_iff`: venue A reports a zero minimum
(substituted by 5), venue B reports none (substituted by 5); usd 3 < 5, so
the open fails with InvalidOrder even though both legs would succeed. -/
theorem open_min_notional_iff_witness :
    orFive none = 5 ∧ orFive (some 0) = 5 ∧
    (get_order_amount (some 0) none quantId quantId 3 1 4 4 =
        Except.error () ↔
      (3 : ℚ) < max (orFive (some 0)) (orFive none)) ∧
    ((openAttempt (get_order_amount (some 0) none quantId quantId 3 1 4 4)
        true true 0).1 = false ↔
      (3 : ℚ) < max (orFive (some 0)) (orFive none)) :=
  open_min_notional_iff (some 0) none quantId quantId 3 1 4 4 0 true true
    ⟨rfl, rfl⟩
